import Mathlib

/-!
Verification of the furigana–accent alignment core of `src/api/accent_marker.py`
(the merge loop of `mark_accent`, lines 266–381), together with the character
classifier `is_kana_or_kanji` and the data model shared with
`src/api/furigana_marker.py`.

Modelling conventions:
* Python strings are `List Char` (Python `len` counts code points, as does
  `List.length`; `str.startswith` is `<+:`; slicing `s[i:i+n]` is
  `(s.drop i).take n`).
* `jaconv.kata2hira` translates each full-width katakana in U+30A1–U+30F6 to
  the hiragana 0x60 code points below it and leaves every other character
  unchanged (jaconv builds its table from `chr(12449)..chr(12534)` zipped with
  `chr(12353)..chr(12438)`).
* The dicts produced by `mark_furigana(...)["result"]` become `FuriganaResult`
  (`subword = none` models the key being absent), the dicts of
  `get_ojad_result` become `OjadResult`, and the pydantic models of
  `accent_marker.py` become the structures of the same names.
* pydantic field validation is explicit where the source can fail it: a
  `SingleWordResultObject` has two `str` fields, so constructing one from a
  non-string raises a `ValidationError`; this is the `Except` layer below.
  The `except Exception` handler at the bottom of `mark_accent` turns any such
  exception into a `status = 500` response with an empty result list (the
  formatted message string of `ErrorInfo` is not modelled, only its numeric
  `code` and `length` fields).
-/

namespace AccentMarker

/-- Output element of `mark_furigana` and element type of the `subword` field
(`src/api/furigana_marker.py`, class `SingleWordResultObject`). -/
structure SingleWordResultObject where
  furigana : List Char
  surface : List Char
  deriving DecidableEq, Repr

/-- One element of `furigana_results` in `mark_accent`: a dict with keys
`furigana`, `surface` and optionally `subword`. -/
structure FuriganaResult where
  furigana : List Char
  surface : List Char
  subword : Option (List SingleWordResultObject)
  deriving DecidableEq, Repr

/-- One element of `ojad_results` returned by `get_ojad_result`:
`{"text": moji.get_text(), "accent": accent}` with accent 0 = none,
1 = `accent_plain`, 2 = `accent_top`. -/
structure OjadResult where
  text : List Char
  accent : Nat
  deriving DecidableEq, Repr

/-- `class AccentInfo` of `src/api/accent_marker.py` (lines 144–151). -/
structure AccentInfo where
  furigana : List Char
  accent_marking_type : Nat
  length : Nat
  deriving DecidableEq, Repr

/-- `SingleWordAccentResultObject` (`subword = none`) and
`MultiWordAccentResultObject` (`subword = some _`) of `accent_marker.py`,
merged into one structure with an optional `subword` field. -/
structure AccentResultObject where
  furigana : List Char
  surface : List Char
  accent : List AccentInfo
  subword : Option (List SingleWordResultObject)
  deriving DecidableEq, Repr

/-- `class ErrorInfo` of `accent_marker.py`; the `message` string is not
modelled. -/
structure ErrorInfo where
  code : Nat
  length : Nat
  deriving DecidableEq, Repr

/-- `class Response` of `accent_marker.py`. -/
structure Response where
  status : Nat
  result : List AccentResultObject
  error : Option ErrorInfo
  deriving DecidableEq, Repr

/-- `jaconv.kata2hira` on a single character: full-width katakana
U+30A1–U+30F6 shift down by 0x60 to the corresponding hiragana. -/
def kata2hiraChar (c : Char) : Char :=
  if 0x30A1 ≤ c.toNat ∧ c.toNat ≤ 0x30F6 then Char.ofNat (c.toNat - 0x60) else c

/-- `jaconv.kata2hira` on a string. -/
def kata2hira (s : List Char) : List Char := s.map kata2hiraChar

/-- The `exception_symbols` list of `is_kana_or_kanji`
(U+30A0 ゠, U+30FB ・, U+30FC ー, U+30FD ヽ, U+30FE ヾ, U+30FF ヿ). -/
def exception_symbols : List Char :=
  [Char.ofNat 0x30A0, Char.ofNat 0x30FB, Char.ofNat 0x30FC,
   Char.ofNat 0x30FD, Char.ofNat 0x30FE, Char.ofNat 0x30FF]

/-- `is_kana_or_kanji` (`src/api/accent_marker.py`, lines 115–125):
kana block `range(0x3040, 0x30FF + 1)` or kanji block
`range(0x4E00, 0x9FFF + 1)`, minus the six exception symbols. -/
def is_kana_or_kanji (c : Char) : Bool :=
  if c ∈ exception_symbols then false
  else if (0x3040 ≤ c.toNat ∧ c.toNat ≤ 0x30FF) ∨
          (0x4E00 ≤ c.toNat ∧ c.toNat ≤ 0x9FFF) then true
  else false

/-- The guard of the bypass branch at line 280:
`"subword" not in furigana_result and any(not is_kana_or_kanji(chr) for chr in yahoo_furigana)`. -/
def bypassCond (t : FuriganaResult) : Bool :=
  t.subword.isNone && t.furigana.any (fun c => !(is_kana_or_kanji c))

/-- The prefix-seek loop at lines 304–308: starting from `ojad_idx_cnt`,
advance `ojad_idx` while the kata2hira-normalized OJAD fragment is not a
prefix of the normalized reading `yahoo_furigana_hira`. -/
def seekIdx (ojad : List OjadResult) (yahoo_furigana_hira : List Char)
    (idx : Nat) : Nat :=
  if h : idx < ojad.length then
    if kata2hira (ojad.get ⟨idx, h⟩).text <+: yahoo_furigana_hira then idx
    else seekIdx ojad yahoo_furigana_hira (idx + 1)
  else idx
termination_by ojad.length - idx

/-- The `AccentInfo` appended for one consumed OJAD token (lines 317–323). -/
def mkFrag (t : OjadResult) : AccentInfo :=
  ⟨t.text, t.accent, t.text.length⟩

/-- The greedy-consumption loop at lines 311–325: while
`len(ojad_furigana) < len(yahoo_furigana) and ojad_idx < len(ojad_results)`,
append the OJAD fragment to `ojad_furigana`, append an `AccentInfo` for it to
`accents`, and advance `ojad_idx`. Returns the final
`(ojad_furigana, accents, ojad_idx)`. -/
def consume (ojad : List OjadResult) (targetLen : Nat) (idx : Nat)
    (ojad_furigana : List Char) (accents : List AccentInfo) :
    List Char × List AccentInfo × Nat :=
  if h : ojad_furigana.length < targetLen ∧ idx < ojad.length then
    let t := ojad.get ⟨idx, h.2⟩
    consume ojad targetLen (idx + 1) (ojad_furigana ++ t.text)
      (accents ++ [mkFrag t])
  else (ojad_furigana, accents, idx)
termination_by ojad.length - idx

/-- The rebuild loop at lines 335–347: re-slice `yahoo_furigana` at the
cumulative fragment lengths, keeping each fragment's accent mark and length. -/
def buildAccentInfoList (yahoo_furigana : List Char) (start : Nat) :
    List AccentInfo → List AccentInfo
  | [] => []
  | a :: rest =>
      ⟨(yahoo_furigana.drop start).take a.length, a.accent_marking_type,
        a.length⟩ ::
        buildAccentInfoList yahoo_furigana (start + a.length) rest

/-- A Python value passed to a pydantic `str` field: either an actual string
or a whole sub-token dict. -/
inductive PyVal where
  | str : List Char → PyVal
  | obj : SingleWordResultObject → PyVal
  deriving DecidableEq, Repr

/-- pydantic construction of `SingleWordResultObject`: both declared fields
are `str`, so validation fails (a `ValidationError` is raised) unless both
arguments are strings. -/
def mkSingleWordResultObject : PyVal → PyVal → Except Unit SingleWordResultObject
  | .str f, .str s => .ok ⟨f, s⟩
  | _, _ => .error ()

/-- The list comprehension at lines 367–370:
`[SingleWordResultObject(furigana=s, surface=s) for s in yahoo_subword]`.
Each `s` is a whole sub-token dict (`mark_furigana` serialized it with
`model_dump`), and the source passes `s` itself — not `s["furigana"]` /
`s["surface"]` — to both `str` fields. -/
def buildSubwordOutput (subs : List SingleWordResultObject) :
    Except Unit (List SingleWordResultObject) :=
  subs.mapM (fun s => mkSingleWordResultObject (PyVal.obj s) (PyVal.obj s))

/-- One iteration of the merge loop of `mark_accent` (lines 268–379) for a
single `furigana_result`, threading the shared cursor `ojad_idx_cnt`.
Returns the emitted result (if any) and the new cursor, or an error when the
iteration raises (which aborts the whole request). -/
def processToken (ojad : List OjadResult) (ojad_idx_cnt : Nat)
    (t : FuriganaResult) : Except Unit (Option AccentResultObject × Nat) :=
  let yahoo_furigana := t.furigana
  let yahoo_furigana_hira := kata2hira yahoo_furigana
  let yahoo_surface := t.surface
  if bypassCond t then
    .ok (some { furigana := yahoo_furigana, surface := yahoo_surface,
                accent := [⟨yahoo_surface, 0, yahoo_surface.length⟩],
                subword := none }, ojad_idx_cnt)
  else
    let ojad_idx := seekIdx ojad yahoo_furigana_hira ojad_idx_cnt
    match consume ojad yahoo_furigana.length ojad_idx [] [] with
    | (ojad_furigana, accents, ojad_idx2) =>
      if ojad_furigana.length = yahoo_furigana.length ∧
          kata2hira ojad_furigana = kata2hira yahoo_furigana then
        let accent_info_list := buildAccentInfoList yahoo_furigana 0 accents
        match t.subword with
        | none =>
            .ok (some { furigana := yahoo_furigana, surface := yahoo_surface,
                        accent := accent_info_list, subword := none },
                 ojad_idx2)
        | some yahoo_subword =>
            match buildSubwordOutput yahoo_subword with
            | .error e => .error e
            | .ok out =>
                .ok (some { furigana := yahoo_furigana,
                            surface := yahoo_surface,
                            accent := accent_info_list, subword := some out },
                     ojad_idx2)
      else
        .ok (none, ojad_idx_cnt)

/-- The whole merge loop (lines 266–379): fold `processToken` over
`furigana_results` left to right, collecting the emitted results in order and
threading `ojad_idx_cnt`. An exception in any iteration aborts the loop. -/
def mergeLoop (ojad : List OjadResult) :
    List FuriganaResult → Nat → Except Unit (List AccentResultObject × Nat)
  | [], c => .ok ([], c)
  | t :: ts, c =>
    match processToken ojad c t with
    | .error e => .error e
    | .ok (none, c') => mergeLoop ojad ts c'
    | .ok (some r, c') =>
      match mergeLoop ojad ts c' with
      | .error e => .error e
      | .ok (rs, c2) => .ok (r :: rs, c2)

/-- The pure core of the `mark_accent` endpoint (spec §6
`alignFuriganaWithAccent` plus response shaping): given the two upstream token
lists, run the merge loop from cursor 0; a normal finish yields
`Response(status=200, result=..., error=None)` (line 381), while an exception
is caught by the `except Exception` handler and yields
`Response(status=500, result=[], error=ErrorInfo(code=500, ..., length=0))`
(lines 413–418). -/
def mark_accent (furigana_results : List FuriganaResult)
    (ojad_results : List OjadResult) : Response :=
  match mergeLoop ojad_results furigana_results 0 with
  | .ok (rs, _) => { status := 200, result := rs, error := none }
  | .error _ => { status := 500, result := [], error := some ⟨500, 0⟩ }

/-- Concatenation of the `text` fields of a run of OJAD tokens. -/
def concatTexts : List OjadResult → List Char
  | [] => []
  | t :: ts => t.text ++ concatTexts ts

/-- Concatenation of the `furigana` texts of accent fragments. -/
def fragTextConcat : List AccentInfo → List Char
  | [] => []
  | a :: rest => a.furigana ++ fragTextConcat rest

/-- Sum of the `length` fields of accent fragments. -/
def fragLenSum : List AccentInfo → Nat
  | [] => 0
  | a :: rest => a.length + fragLenSum rest

/-- The step-4 validation (line 328) fails for this token at this cursor:
the greedily consumed concatenation does not have exactly the reading's
length, or differs from the reading after kata2hira normalization. -/
def alignmentMismatch (ojad : List OjadResult) (c : Nat)
    (t : FuriganaResult) : Prop :=
  ¬ ((consume ojad t.furigana.length
        (seekIdx ojad (kata2hira t.furigana) c) [] []).1.length
        = t.furigana.length ∧
     kata2hira (consume ojad t.furigana.length
        (seekIdx ojad (kata2hira t.furigana) c) [] []).1
        = kata2hira t.furigana)

/-- Total number of characters over the `surface` fields of a result list. -/
def total_surface_length (rs : List AccentResultObject) : Nat :=
  (rs.map (fun r => r.surface.length)).sum

/-- Concatenation of the input tokens' surfaces (the original query text, for
a well-formed upstream segmentation). -/
def inputSurfaceConcat : List FuriganaResult → List Char
  | [] => []
  | t :: ts => t.surface ++ inputSurfaceConcat ts

/-- Fragment `i` (0-based) is a slice of `reading` starting at `start`, its
`length` field is the slice's character count, and the following fragments
tile the rest of the reading contiguously. -/
def sliceChain (reading : List Char) : Nat → List AccentInfo → Prop
  | _, [] => True
  | start, a :: rest =>
      a.furigana = (reading.drop start).take a.length ∧
      a.length = a.furigana.length ∧
      sliceChain reading (start + a.length) rest

/-- Scalar accent value: a pitch position, or the out-of-band unknown
sentinel. -/
inductive ScalarAccent where
  | value : Nat → ScalarAccent
  | unknown : ScalarAccent
  deriving DecidableEq, Repr

/-- 0-based index of the first fragment whose mark is peak
(`accent_marking_type = 2`), if any. -/
def firstPeakIdx : List AccentInfo → Option Nat
  | [] => none
  | a :: rest =>
      if a.accent_marking_type = 2 then some 0
      else (firstPeakIdx rest).map (· + 1)

/-- Modelled from the spec: the accent-mark-to-scalar reduction of §4.2
("if any fragment carries peak, accent = 1-based index of the first
peak-marked fragment; else if any fragment carries plain (and none peak),
accent = 0; else accent = sentinel unknown"). No function under `src/`
implements this reduction — `src/api/accent_marker.py` only declares the
per-fragment `AccentInfo` shape (lines 144–160) whose
`accent_marking_type` encodes none (0), plain/heiban (1), peak/fall (2). -/
def scalarAccent (frags : List AccentInfo) : ScalarAccent :=
  match firstPeakIdx frags with
  | some i => .value (i + 1)
  | none =>
      if frags.any (fun a => a.accent_marking_type = 1) then .value 0
      else .unknown

/-- The cursor value after one iteration of the merge loop (used to phrase
well-formedness of an input along the actual cursor trajectory). -/
def nextCursor (ojad : List OjadResult) (c : Nat) (t : FuriganaResult) : Nat :=
  match processToken ojad c t with
  | .ok (_, c2) => c2
  | .error _ => c

/-- Every token, processed at the cursor the loop actually reaches it with,
is either bypassed or passes the step-4 validation. -/
def wellFormed (ojad : List OjadResult) : List FuriganaResult → Nat → Prop
  | [], _ => True
  | t :: ts, c =>
      (bypassCond t = true ∨ ¬ alignmentMismatch ojad c t) ∧
      wellFormed ojad ts (nextCursor ojad c t)

/-! ### Characterizations of the loop primitives -/

theorem concatTexts_cons (t : OjadResult) (ts : List OjadResult) :
    concatTexts (t :: ts) = t.text ++ concatTexts ts := rfl

theorem consume_spec (ojad : List OjadResult) (L : Nat) :
    ∀ (n idx : Nat), ojad.length - idx = n →
    ∀ (acc : List Char) (frags : List AccentInfo),
      ∃ k,
      consume ojad L idx acc frags =
        (acc ++ concatTexts ((ojad.drop idx).take k),
         frags ++ ((ojad.drop idx).take k).map mkFrag,
         idx + k) ∧
      (k = 0 ∨ idx + k ≤ ojad.length) ∧
      (L ≤ (acc ++ concatTexts ((ojad.drop idx).take k)).length ∨
        ojad.length ≤ idx + k) ∧
      (∀ j, j < k →
        (acc ++ concatTexts ((ojad.drop idx).take j)).length < L) := by
  intro n
  induction n with
  | zero =>
    intro idx hn acc frags
    refine ⟨0, ?_, Or.inl rfl, Or.inr (by omega), by omega⟩
    have hcond : ¬ (acc.length < L ∧ idx < ojad.length) := by omega
    rw [consume, dif_neg hcond]
    simp [concatTexts]
  | succ m ih =>
    intro idx hn acc frags
    by_cases hcond : acc.length < L ∧ idx < ojad.length
    · have hdrop : ojad.drop idx = ojad[idx] :: ojad.drop (idx + 1) :=
        List.drop_eq_getElem_cons hcond.2
      obtain ⟨k, hk, hkb, hstop, hmin⟩ :=
        ih (idx + 1) (by omega) (acc ++ (ojad[idx]).text)
          (frags ++ [mkFrag (ojad[idx])])
      have hshape : ∀ j : Nat,
          acc ++ (ojad[idx]).text ++ concatTexts ((ojad.drop (idx + 1)).take j)
          = acc ++ concatTexts ((ojad.drop idx).take (j + 1)) := by
        intro j
        rw [hdrop, List.take_succ_cons, concatTexts_cons, List.append_assoc]
      refine ⟨k + 1, ?_, Or.inr (by omega), ?_, ?_⟩
      · rw [consume, dif_pos hcond]
        simp only [List.get_eq_getElem]
        rw [hk]
        refine congrArg₂ _ (hshape k) (congrArg₂ _ ?_ (by omega))
        rw [hdrop, List.take_succ_cons, List.map_cons, List.append_assoc]
        rfl
      · rcases hstop with hstop | hstop
        · left; rw [← hshape k]; exact hstop
        · right; omega
      · intro j hj
        match j with
        | 0 =>
          simpa [concatTexts] using hcond.1
        | j' + 1 =>
          rw [← hshape j']
          exact hmin j' (by omega)
    · refine ⟨0, ?_, Or.inl rfl, ?_, by omega⟩
      · rw [consume, dif_neg hcond]
        simp [concatTexts]
      · simp only [List.take_zero, concatTexts, List.append_nil]
        omega

theorem seekIdx_spec (ojad : List OjadResult) (tgt : List Char) :
    ∀ (n idx : Nat), ojad.length - idx = n →
      idx ≤ seekIdx ojad tgt idx ∧
      (idx ≤ ojad.length → seekIdx ojad tgt idx ≤ ojad.length) ∧
      (∀ k (hk : k < ojad.length), idx ≤ k → k < seekIdx ojad tgt idx →
        ¬ (kata2hira (ojad.get ⟨k, hk⟩).text <+: tgt)) ∧
      (∀ hs : seekIdx ojad tgt idx < ojad.length,
        kata2hira (ojad.get ⟨seekIdx ojad tgt idx, hs⟩).text <+: tgt) := by
  intro n
  induction n with
  | zero =>
    intro idx hn
    have hge : ¬ idx < ojad.length := by omega
    rw [seekIdx, dif_neg hge]
    exact ⟨le_refl _, fun h => by omega, fun k hk h1 h2 => by omega,
      fun hs => absurd hs hge⟩
  | succ m ih =>
    intro idx hn
    by_cases hlt : idx < ojad.length
    · rw [seekIdx, dif_pos hlt]
      by_cases hpre : kata2hira (ojad.get ⟨idx, hlt⟩).text <+: tgt
      · rw [if_pos hpre]
        exact ⟨le_refl _, fun _ => by omega, fun k hk h1 h2 => by omega,
          fun hs => hpre⟩
      · rw [if_neg hpre]
        obtain ⟨ih1, ih2, ih3, ih4⟩ := ih (idx + 1) (by omega)
        refine ⟨by omega, fun _ => ih2 (by omega), ?_, ih4⟩
        intro k hk h1 h2
        rcases Nat.eq_or_lt_of_le h1 with h1 | h1
        · subst h1
          intro hcon
          exact hpre hcon
        · exact ih3 k hk (by omega) h2
    · rw [seekIdx, dif_neg hlt]
      exact ⟨le_refl _, fun h => by omega, fun k hk h1 h2 => by omega,
        fun hs => absurd hs hlt⟩

theorem fragLenSum_map_mkFrag (s : List OjadResult) :
    fragLenSum (s.map mkFrag) = (concatTexts s).length := by
  induction s with
  | nil => rfl
  | cons t ts ih =>
      simp [fragLenSum, concatTexts_cons, mkFrag, ih, List.length_append]

theorem buildAccentInfoList_marks (y : List Char) (s : Nat)
    (accs : List AccentInfo) :
    (buildAccentInfoList y s accs).map
        (fun a => (a.accent_marking_type, a.length))
      = accs.map (fun a => (a.accent_marking_type, a.length)) := by
  induction accs generalizing s with
  | nil => rfl
  | cons a rest ih => simp [buildAccentInfoList, ih]

theorem buildAccentInfoList_lenSum (y : List Char) (s : Nat)
    (accs : List AccentInfo) :
    fragLenSum (buildAccentInfoList y s accs) = fragLenSum accs := by
  induction accs generalizing s with
  | nil => rfl
  | cons a rest ih => simp [buildAccentInfoList, fragLenSum, ih]

theorem buildAccentInfoList_concat (y : List Char) :
    ∀ (accs : List AccentInfo) (s : Nat), s + fragLenSum accs ≤ y.length →
    fragTextConcat (buildAccentInfoList y s accs)
      = (y.drop s).take (fragLenSum accs) := by
  intro accs
  induction accs with
  | nil =>
      intro s h
      simp [buildAccentInfoList, fragTextConcat, fragLenSum]
  | cons a rest ih =>
      intro s h
      simp only [buildAccentInfoList, fragTextConcat, fragLenSum] at *
      rw [ih (s + a.length) (by omega), List.take_add]
      congr 1
      rw [List.drop_drop]

theorem buildAccentInfoList_sliceChain (y : List Char) :
    ∀ (accs : List AccentInfo) (s : Nat), s + fragLenSum accs ≤ y.length →
    sliceChain y s (buildAccentInfoList y s accs) := by
  intro accs
  induction accs with
  | nil =>
      intro s h
      exact trivial
  | cons a rest ih =>
      intro s h
      have h' : s + (a.length + fragLenSum rest) ≤ y.length := h
      refine ⟨rfl, ?_, ih (s + a.length) (by omega)⟩
      show a.length = ((y.drop s).take a.length).length
      rw [List.length_take, List.length_drop]
      omega

/-- Unfolding of one non-bypass iteration: the prefix-seek result, the greedy
consumption facts, and the exact shape of the validation/subword branching. -/
theorem processToken_eq (ojad : List OjadResult) (c : Nat)
    (t : FuriganaResult) (hb : bypassCond t = false) :
    ∃ k,
      (k = 0 ∨ seekIdx ojad (kata2hira t.furigana) c + k ≤ ojad.length) ∧
      (t.furigana.length ≤
          (concatTexts ((ojad.drop
            (seekIdx ojad (kata2hira t.furigana) c)).take k)).length ∨
        ojad.length ≤ seekIdx ojad (kata2hira t.furigana) c + k) ∧
      (∀ j, j < k →
        (concatTexts ((ojad.drop
          (seekIdx ojad (kata2hira t.furigana) c)).take j)).length
          < t.furigana.length) ∧
      processToken ojad c t =
        (if (concatTexts ((ojad.drop
              (seekIdx ojad (kata2hira t.furigana) c)).take k)).length
              = t.furigana.length ∧
            kata2hira (concatTexts ((ojad.drop
              (seekIdx ojad (kata2hira t.furigana) c)).take k))
              = kata2hira t.furigana then
          match t.subword with
          | none =>
              .ok (some ⟨t.furigana, t.surface,
                buildAccentInfoList t.furigana 0
                  (((ojad.drop
                    (seekIdx ojad (kata2hira t.furigana) c)).take k).map
                      mkFrag), none⟩,
                seekIdx ojad (kata2hira t.furigana) c + k)
          | some subs =>
              match buildSubwordOutput subs with
              | .error e => .error e
              | .ok out =>
                  .ok (some ⟨t.furigana, t.surface,
                    buildAccentInfoList t.furigana 0
                      (((ojad.drop
                        (seekIdx ojad (kata2hira t.furigana) c)).take k).map
                          mkFrag), some out⟩,
                    seekIdx ojad (kata2hira t.furigana) c + k)
        else .ok (none, c)) := by
  obtain ⟨k, hk, hkb, hstop, hmin⟩ :=
    consume_spec ojad t.furigana.length
      (ojad.length - seekIdx ojad (kata2hira t.furigana) c)
      (seekIdx ojad (kata2hira t.furigana) c) rfl [] []
  simp only [List.nil_append] at hk hstop hmin
  refine ⟨k, hkb, hstop, hmin, ?_⟩
  unfold processToken
  simp only [hb, Bool.false_eq_true, if_false, hk]

theorem processToken_of_bypass (ojad : List OjadResult) (c : Nat)
    (t : FuriganaResult) (hb : bypassCond t = true) :
    processToken ojad c t =
      .ok (some ⟨t.furigana, t.surface,
        [⟨t.surface, 0, t.surface.length⟩], none⟩, c) := by
  unfold processToken
  simp only [hb, if_true]

theorem processToken_of_mismatch (ojad : List OjadResult) (c : Nat)
    (t : FuriganaResult) (hb : bypassCond t = false)
    (hm : alignmentMismatch ojad c t) :
    processToken ojad c t = .ok (none, c) := by
  obtain ⟨k, hk, hkb, hstop, hmin⟩ :=
    consume_spec ojad t.furigana.length
      (ojad.length - seekIdx ojad (kata2hira t.furigana) c)
      (seekIdx ojad (kata2hira t.furigana) c) rfl [] []
  simp only [List.nil_append] at hk
  unfold alignmentMismatch at hm
  rw [hk] at hm
  unfold processToken
  simp only [hb, Bool.false_eq_true, if_false, hk]
  exact if_neg hm

theorem processToken_success_spec (ojad : List OjadResult) (c : Nat)
    (t : FuriganaResult) (res : AccentResultObject) (c2 : Nat)
    (hb : bypassCond t = false)
    (h : processToken ojad c t = .ok (some res, c2)) :
    ∃ k,
      c2 = seekIdx ojad (kata2hira t.furigana) c + k ∧
      (concatTexts ((ojad.drop
        (seekIdx ojad (kata2hira t.furigana) c)).take k)).length
        = t.furigana.length ∧
      kata2hira (concatTexts ((ojad.drop
        (seekIdx ojad (kata2hira t.furigana) c)).take k))
        = kata2hira t.furigana ∧
      res.furigana = t.furigana ∧
      res.surface = t.surface ∧
      res.accent = buildAccentInfoList t.furigana 0
        (((ojad.drop (seekIdx ojad (kata2hira t.furigana) c)).take k).map
          mkFrag) ∧
      (∀ j, j < k →
        (concatTexts ((ojad.drop
          (seekIdx ojad (kata2hira t.furigana) c)).take j)).length
          < t.furigana.length) ∧
      (k = 0 ∨ seekIdx ojad (kata2hira t.furigana) c + k ≤ ojad.length) := by
  obtain ⟨k, hkb, hstop, hmin, heq⟩ := processToken_eq ojad c t hb
  rw [heq] at h
  by_cases hv :
      (concatTexts ((ojad.drop
        (seekIdx ojad (kata2hira t.furigana) c)).take k)).length
        = t.furigana.length ∧
      kata2hira (concatTexts ((ojad.drop
        (seekIdx ojad (kata2hira t.furigana) c)).take k))
        = kata2hira t.furigana
  · rw [if_pos hv] at h
    rcases hsub : t.subword with _ | subs
    · simp only [hsub, Except.ok.injEq, Prod.mk.injEq, Option.some.injEq] at h
      obtain ⟨hres, hc2⟩ := h
      exact ⟨k, hc2.symm, hv.1, hv.2, by rw [← hres], by rw [← hres],
        by rw [← hres], hmin, hkb⟩
    · simp only [hsub] at h
      rcases hbs : buildSubwordOutput subs with e | out
      · simp only [hbs] at h
        cases h
      · simp only [hbs, Except.ok.injEq, Prod.mk.injEq,
          Option.some.injEq] at h
        obtain ⟨hres, hc2⟩ := h
        exact ⟨k, hc2.symm, hv.1, hv.2, by rw [← hres], by rw [← hres],
          by rw [← hres], hmin, hkb⟩
  · rw [if_neg hv] at h
    simp only [Except.ok.injEq, Prod.mk.injEq] at h
    exact absurd h.1 (by simp)

theorem processToken_cursor_le (ojad : List OjadResult) (c : Nat)
    (t : FuriganaResult) (r : Option AccentResultObject) (c2 : Nat)
    (h : processToken ojad c t = .ok (r, c2)) : c ≤ c2 := by
  by_cases hb : bypassCond t = true
  · rw [processToken_of_bypass ojad c t hb] at h
    simp only [Except.ok.injEq, Prod.mk.injEq] at h
    omega
  · have hb' : bypassCond t = false := by
      revert hb
      cases bypassCond t <;> simp
    obtain ⟨k, hkb, hstop, hmin, heq⟩ := processToken_eq ojad c t hb'
    have hs := (seekIdx_spec ojad (kata2hira t.furigana)
      (ojad.length - c) c rfl).1
    rw [heq] at h
    by_cases hv :
        (concatTexts ((ojad.drop
          (seekIdx ojad (kata2hira t.furigana) c)).take k)).length
          = t.furigana.length ∧
        kata2hira (concatTexts ((ojad.drop
          (seekIdx ojad (kata2hira t.furigana) c)).take k))
          = kata2hira t.furigana
    · rw [if_pos hv] at h
      rcases hsub : t.subword with _ | subs
      · simp only [hsub, Except.ok.injEq, Prod.mk.injEq] at h
        omega
      · simp only [hsub] at h
        rcases hbs : buildSubwordOutput subs with e | out
        · simp only [hbs] at h
          cases h
        · simp only [hbs, Except.ok.injEq, Prod.mk.injEq] at h
          omega
    · rw [if_neg hv] at h
      simp only [Except.ok.injEq, Prod.mk.injEq] at h
      omega

theorem mergeLoop_cursor_le (ojad : List OjadResult) :
    ∀ (ts : List FuriganaResult) (c : Nat)
      (out : List AccentResultObject × Nat),
      mergeLoop ojad ts c = .ok out → c ≤ out.2 := by
  intro ts
  induction ts with
  | nil =>
      intro c out h
      simp only [mergeLoop, Except.ok.injEq] at h
      rw [← h]
  | cons t ts ih =>
      intro c out h
      simp only [mergeLoop] at h
      rcases hp : processToken ojad c t with e | ⟨r, c1⟩
      · simp only [hp] at h
        cases h
      · simp only [hp] at h
        have hc1 : c ≤ c1 := processToken_cursor_le ojad c t r c1 hp
        rcases r with _ | x
        · exact le_trans hc1 (ih c1 out h)
        · rcases hm : mergeLoop ojad ts c1 with e | out2
          · simp only [hm] at h
            cases h
          · simp only [hm, Except.ok.injEq] at h
            have h2 := ih c1 out2 hm
            rw [← h]
            simpa using le_trans hc1 h2

theorem mergeLoop_skip (ojad : List OjadResult) (t : FuriganaResult)
    (ts : List FuriganaResult) (c : Nat)
    (h : processToken ojad c t = .ok (none, c)) :
    mergeLoop ojad (t :: ts) c = mergeLoop ojad ts c := by
  simp only [mergeLoop, h]

theorem char_toNat_inj {a b : Char} (h : a.toNat = b.toNat) : a = b := by
  cases a with
  | mk av ah =>
    cases b with
    | mk bv bh =>
      cases av with
      | mk avf =>
        cases bv with
        | mk bvf =>
          simp only [Char.toNat, UInt32.toNat] at h
          have : avf = bvf := BitVec.eq_of_toNat_eq h
          subst this
          rfl

theorem mem_exception_symbols_iff (c : Char) :
    c ∈ exception_symbols ↔
      (c.toNat = 0x30A0 ∨ c.toNat = 0x30FB ∨ c.toNat = 0x30FC ∨
       c.toNat = 0x30FD ∨ c.toNat = 0x30FE ∨ c.toNat = 0x30FF) := by
  simp only [exception_symbols, List.mem_cons, List.not_mem_nil, or_false]
  constructor
  · rintro (rfl | rfl | rfl | rfl | rfl | rfl) <;> decide
  · rintro (h | h | h | h | h | h)
    · exact Or.inl (char_toNat_inj (by rw [h]; decide))
    · exact Or.inr (Or.inl (char_toNat_inj (by rw [h]; decide)))
    · exact Or.inr (Or.inr (Or.inl (char_toNat_inj (by rw [h]; decide))))
    · exact Or.inr (Or.inr (Or.inr (Or.inl
        (char_toNat_inj (by rw [h]; decide)))))
    · exact Or.inr (Or.inr (Or.inr (Or.inr (Or.inl
        (char_toNat_inj (by rw [h]; decide))))))
    · exact Or.inr (Or.inr (Or.inr (Or.inr (Or.inr
        (char_toNat_inj (by rw [h]; decide))))))

theorem is_kana_or_kanji_iff (c : Char) :
    is_kana_or_kanji c = true ↔
      ((0x3040 ≤ c.toNat ∧ c.toNat ≤ 0x30FF ∧
        c.toNat ≠ 0x30A0 ∧ c.toNat ≠ 0x30FB ∧ c.toNat ≠ 0x30FC ∧
        c.toNat ≠ 0x30FD ∧ c.toNat ≠ 0x30FE ∧ c.toNat ≠ 0x30FF) ∨
       (0x4E00 ≤ c.toNat ∧ c.toNat ≤ 0x9FFF)) := by
  unfold is_kana_or_kanji
  by_cases hm : c ∈ exception_symbols
  · rw [if_pos hm]
    have h6 := (mem_exception_symbols_iff c).mp hm
    simp only [Bool.false_eq_true, false_iff]
    omega
  · rw [if_neg hm]
    have h6 : ¬ (c.toNat = 0x30A0 ∨ c.toNat = 0x30FB ∨ c.toNat = 0x30FC ∨
        c.toNat = 0x30FD ∨ c.toNat = 0x30FE ∨ c.toNat = 0x30FF) :=
      fun h => hm ((mem_exception_symbols_iff c).mpr h)
    by_cases hr : (0x3040 ≤ c.toNat ∧ c.toNat ≤ 0x30FF) ∨
        (0x4E00 ≤ c.toNat ∧ c.toNat ≤ 0x9FFF)
    · rw [if_pos hr]
      simp only [true_iff]
      omega
    · rw [if_neg hr]
      simp only [Bool.false_eq_true, false_iff]
      omega

/-- C8: `is_kana_or_kanji` returns `true` exactly on the kana block
U+3040–U+30FF minus the six exception symbols ゠・ーヽヾヿ, and on the CJK
unified ideograph block U+4E00–U+9FFF; in particular it returns `false`
("other") for half-width kana (U+FF65–U+FF9F), for the six exception
symbols, for everything below U+3040 (all of ASCII — letters included — and
the CJK punctuation block U+3000–U+303F), and for everything above U+9FFF
(full-width punctuation included). -/
theorem is_kana_or_kanji_classification :
    (∀ c : Char, is_kana_or_kanji c = true ↔
      ((0x3040 ≤ c.toNat ∧ c.toNat ≤ 0x30FF ∧
        c.toNat ≠ 0x30A0 ∧ c.toNat ≠ 0x30FB ∧ c.toNat ≠ 0x30FC ∧
        c.toNat ≠ 0x30FD ∧ c.toNat ≠ 0x30FE ∧ c.toNat ≠ 0x30FF) ∨
       (0x4E00 ≤ c.toNat ∧ c.toNat ≤ 0x9FFF))) ∧
    (∀ c : Char, 0xFF65 ≤ c.toNat → c.toNat ≤ 0xFF9F →
      is_kana_or_kanji c = false) ∧
    (∀ c : Char, c ∈ exception_symbols → is_kana_or_kanji c = false) ∧
    (∀ c : Char, c.toNat < 0x3040 → is_kana_or_kanji c = false) ∧
    (∀ c : Char, 0x9FFF < c.toNat → is_kana_or_kanji c = false) := by
  have hfalse : ∀ c : Char,
      ¬ ((0x3040 ≤ c.toNat ∧ c.toNat ≤ 0x30FF ∧
        c.toNat ≠ 0x30A0 ∧ c.toNat ≠ 0x30FB ∧ c.toNat ≠ 0x30FC ∧
        c.toNat ≠ 0x30FD ∧ c.toNat ≠ 0x30FE ∧ c.toNat ≠ 0x30FF) ∨
       (0x4E00 ≤ c.toNat ∧ c.toNat ≤ 0x9FFF)) → is_kana_or_kanji c = false := by
    intro c hneg
    cases hc : is_kana_or_kanji c
    · rfl
    · exact absurd ((is_kana_or_kanji_iff c).mp hc) hneg
  refine ⟨is_kana_or_kanji_iff, ?_, ?_, ?_, ?_⟩
  · intro c h1 h2
    exact hfalse c (by omega)
  · intro c hm
    unfold is_kana_or_kanji
    rw [if_pos hm]
  · intro c h
    exact hfalse c (by omega)
  · intro c h
    exact hfalse c (by omega)

/-- Witness for C8 at concrete characters: half-width ｶ (U+FF76), the
chōonpu ー (an exception symbol), the ASCII letter A, and the hiragana あ. -/
theorem is_kana_or_kanji_classification_witness :
    is_kana_or_kanji (Char.ofNat 0xFF76) = false ∧
    is_kana_or_kanji (Char.ofNat 0x30FC) = false ∧
    is_kana_or_kanji (Char.ofNat 0x41) = false ∧
    is_kana_or_kanji (Char.ofNat 0x3042) = true :=
  ⟨is_kana_or_kanji_classification.2.1 (Char.ofNat 0xFF76)
      (by decide) (by decide),
   is_kana_or_kanji_classification.2.2.1 (Char.ofNat 0x30FC) (by decide),
   is_kana_or_kanji_classification.2.2.2.1 (Char.ofNat 0x41) (by decide),
   (is_kana_or_kanji_classification.1 (Char.ofNat 0x3042)).mpr (by decide)⟩

/-- C4: a token with no sub-tokens whose reading contains a non-kana,
non-kanji character takes the bypass branch: the emitted result carries a
single accent fragment whose text is the *surface* verbatim, the
`accent_marking_type = 0` sentinel, and length equal to the surface's
length; the shared accent cursor is returned unchanged. -/
theorem bypass_rule (ojad : List OjadResult) (c : Nat) (t : FuriganaResult)
    (h1 : t.subword = none)
    (h2 : t.furigana.any (fun ch => !(is_kana_or_kanji ch)) = true) :
    processToken ojad c t =
      .ok (some ⟨t.furigana, t.surface,
        [⟨t.surface, 0, t.surface.length⟩], none⟩, c) := by
  apply processToken_of_bypass
  simp [bypassCond, h1, h2]

/-- Witness for C4: the reading "Hello!" (all ASCII) is bypassed, with the
surface preserved verbatim and the sentinel mark 0, at any cursor (here 3),
which is returned unchanged. -/
theorem bypass_rule_witness :
    processToken [] 3
        ⟨['H','e','l','l','o','!'], ['H','e','l','l','o','!'], none⟩ =
      .ok (some ⟨['H','e','l','l','o','!'], ['H','e','l','l','o','!'],
        [⟨['H','e','l','l','o','!'], 0, 6⟩], none⟩, 3) :=
  bypass_rule [] 3 ⟨['H','e','l','l','o','!'], ['H','e','l','l','o','!'], none⟩
    rfl (by decide)

theorem firstPeakIdx_of_first :
    ∀ (frags : List AccentInfo) (i : Nat) (hi : i < frags.length),
      (frags.get ⟨i, hi⟩).accent_marking_type = 2 →
      (∀ j (hj : j < frags.length), j < i →
        (frags.get ⟨j, hj⟩).accent_marking_type ≠ 2) →
      firstPeakIdx frags = some i := by
  intro frags
  induction frags with
  | nil =>
      intro i hi
      simp at hi
  | cons a rest ih =>
      intro i hi hpeak hmin
      match i with
      | 0 =>
          have ha : a.accent_marking_type = 2 := hpeak
          unfold firstPeakIdx
          rw [if_pos ha]
      | i' + 1 =>
          have ha : a.accent_marking_type ≠ 2 :=
            hmin 0 (by simp) (by omega)
          unfold firstPeakIdx
          rw [if_neg ha, ih i' (by simpa using hi) hpeak]
          · rfl
          · intro j hj hji
            exact hmin (j + 1) (by simpa using hj) (by omega)

theorem firstPeakIdx_of_no_peak :
    ∀ (frags : List AccentInfo),
      (∀ i (hi : i < frags.length),
        (frags.get ⟨i, hi⟩).accent_marking_type ≠ 2) →
      firstPeakIdx frags = none := by
  intro frags
  induction frags with
  | nil => intro _; rfl
  | cons a rest ih =>
      intro h
      have ha : a.accent_marking_type ≠ 2 := h 0 (by simp)
      unfold firstPeakIdx
      rw [if_neg ha, ih (fun i hi => h (i + 1) (by simpa using hi))]
      rfl

/-- C9: the accent-mark-to-scalar reduction (modelled from the spec — no
function under `src/` implements it; `accent_marker.py` only declares the
`AccentInfo` mark encoding none = 0, plain = 1, peak = 2): if some fragment
carries the peak mark, the scalar is the 1-based index of the first such
fragment; if none carries peak but some carries plain, the scalar is 0
(heiban); otherwise it is the out-of-band `unknown` sentinel, distinct from
`value 0`. The がっこう example: reading がっこう (length 4) against accent
fragments が・っ・こう with marks none/none/peak merges into three fragments
of total length 4 whose reduction is `value 3`. -/
theorem scalar_accent_reduction :
    (∀ (frags : List AccentInfo) (i : Nat) (hi : i < frags.length),
      (frags.get ⟨i, hi⟩).accent_marking_type = 2 →
      (∀ j (hj : j < frags.length), j < i →
        (frags.get ⟨j, hj⟩).accent_marking_type ≠ 2) →
      scalarAccent frags = .value (i + 1)) ∧
    (∀ frags : List AccentInfo,
      (∀ i (hi : i < frags.length),
        (frags.get ⟨i, hi⟩).accent_marking_type ≠ 2) →
      frags.any (fun a => a.accent_marking_type = 1) = true →
      scalarAccent frags = .value 0) ∧
    (∀ frags : List AccentInfo,
      (∀ i (hi : i < frags.length),
        (frags.get ⟨i, hi⟩).accent_marking_type ≠ 2) →
      frags.any (fun a => a.accent_marking_type = 1) = false →
      scalarAccent frags = .unknown) ∧
    ScalarAccent.unknown ≠ ScalarAccent.value 0 ∧
    (processToken [⟨['が'], 0⟩, ⟨['っ'], 0⟩, ⟨['こ','う'], 2⟩] 0
        ⟨['が','っ','こ','う'], ['学','校'], none⟩ =
      .ok (some ⟨['が','っ','こ','う'], ['学','校'],
        [⟨['が'], 0, 1⟩, ⟨['っ'], 0, 1⟩, ⟨['こ','う'], 2, 2⟩], none⟩, 3) ∧
      scalarAccent [⟨['が'], 0, 1⟩, ⟨['っ'], 0, 1⟩, ⟨['こ','う'], 2, 2⟩]
        = .value 3 ∧
      fragLenSum [⟨['が'], 0, 1⟩, ⟨['っ'], 0, 1⟩, ⟨['こ','う'], 2, 2⟩] = 4 ∧
      ([⟨['が'], 0, 1⟩, ⟨['っ'], 0, 1⟩, ⟨['こ','う'], 2, 2⟩] :
        List AccentInfo).length = 3) := by
  refine ⟨?_, ?_, ?_, by simp, ?_, by decide, by decide, by decide⟩
  · intro frags i hi hpeak hmin
    unfold scalarAccent
    rw [firstPeakIdx_of_first frags i hi hpeak hmin]
  · intro frags hnone hany
    unfold scalarAccent
    rw [firstPeakIdx_of_no_peak frags hnone, hany]
    rfl
  · intro frags hnone hany
    unfold scalarAccent
    rw [firstPeakIdx_of_no_peak frags hnone, hany]
    rfl
  · simp [processToken, bypassCond, is_kana_or_kanji, exception_symbols,
      seekIdx, consume, mkFrag, buildAccentInfoList, kata2hira, kata2hiraChar]

/-- Witness for C9: the reduction applied at concrete fragment lists for
each of the three cases. -/
theorem scalar_accent_reduction_witness :
    scalarAccent [⟨['が'], 0, 1⟩, ⟨['っ'], 0, 1⟩, ⟨['こ','う'], 2, 2⟩]
      = .value 3 ∧
    scalarAccent [⟨['は'], 1, 1⟩] = .value 0 ∧
    scalarAccent [⟨['は'], 0, 1⟩] = .unknown :=
  ⟨scalar_accent_reduction.1
      [⟨['が'], 0, 1⟩, ⟨['っ'], 0, 1⟩, ⟨['こ','う'], 2, 2⟩] 2
      (by decide) (by decide) (by decide),
   scalar_accent_reduction.2.1 [⟨['は'], 1, 1⟩] (by decide) (by decide),
   scalar_accent_reduction.2.2.1 [⟨['は'], 0, 1⟩] (by decide) (by decide)⟩

/-- C1: a non-bypass token is emitted only when the greedily consumed
concatenation has exactly the reading's length and equals the reading after
kata2hira normalization; consequently the concatenation of the emitted
fragment texts is the reading itself, hence equal to it under
script-insensitive comparison. -/
theorem validated_merge_invariant (ojad : List OjadResult) (c : Nat)
    (t : FuriganaResult) (res : AccentResultObject) (c2 : Nat)
    (hb : bypassCond t = false)
    (h : processToken ojad c t = .ok (some res, c2)) :
    (∃ k, c2 = seekIdx ojad (kata2hira t.furigana) c + k ∧
      (concatTexts ((ojad.drop
        (seekIdx ojad (kata2hira t.furigana) c)).take k)).length
        = t.furigana.length ∧
      kata2hira (concatTexts ((ojad.drop
        (seekIdx ojad (kata2hira t.furigana) c)).take k))
        = kata2hira t.furigana) ∧
    fragTextConcat res.accent = t.furigana ∧
    kata2hira (fragTextConcat res.accent) = kata2hira t.furigana := by
  obtain ⟨k, hc2, hlen, hkh, hfur, hsurf, hacc, hmin, hkb⟩ :=
    processToken_success_spec ojad c t res c2 hb h
  have hsum : fragLenSum (((ojad.drop
      (seekIdx ojad (kata2hira t.furigana) c)).take k).map mkFrag)
      = t.furigana.length := by
    rw [fragLenSum_map_mkFrag]
    exact hlen
  have hle : 0 + fragLenSum (((ojad.drop
      (seekIdx ojad (kata2hira t.furigana) c)).take k).map mkFrag)
      ≤ t.furigana.length := by
    rw [hsum]
    omega
  have hcat : fragTextConcat res.accent = t.furigana := by
    rw [hacc, buildAccentInfoList_concat t.furigana _ 0 hle, hsum]
    simp
  exact ⟨⟨k, hc2, hlen, hkh⟩, hcat, by rw [hcat]⟩

/-- Witness for C1: reading きょう (surface 今日) merged against the single
OJAD fragment キョウ; the emitted fragment text is the reading きょう. -/
theorem validated_merge_invariant_witness :
    fragTextConcat ([⟨['き','ょ','う'], 2, 3⟩] : List AccentInfo)
      = ['き','ょ','う'] :=
  (validated_merge_invariant [⟨['キ','ョ','ウ'], 2⟩] 0
    ⟨['き','ょ','う'], ['今','日'], none⟩
    ⟨['き','ょ','う'], ['今','日'], [⟨['き','ょ','う'], 2, 3⟩], none⟩ 1
    (by decide)
    (by simp [processToken, bypassCond, is_kana_or_kanji, exception_symbols,
      seekIdx, consume, mkFrag, buildAccentInfoList, kata2hira,
      kata2hiraChar])).2.1

/-- C10: in a validated (non-bypass) result, every accent fragment's text is
the corresponding contiguous slice of the token's reading (so it is in the
furigana source's script), each fragment's `length` field equals its text's
character count, and the lengths sum to exactly the reading's length. -/
theorem fragments_are_reading_slices (ojad : List OjadResult) (c : Nat)
    (t : FuriganaResult) (res : AccentResultObject) (c2 : Nat)
    (hb : bypassCond t = false)
    (h : processToken ojad c t = .ok (some res, c2)) :
    sliceChain t.furigana 0 res.accent ∧
    fragLenSum res.accent = t.furigana.length := by
  obtain ⟨k, hc2, hlen, hkh, hfur, hsurf, hacc, hmin, hkb⟩ :=
    processToken_success_spec ojad c t res c2 hb h
  have hsum : fragLenSum (((ojad.drop
      (seekIdx ojad (kata2hira t.furigana) c)).take k).map mkFrag)
      = t.furigana.length := by
    rw [fragLenSum_map_mkFrag]
    exact hlen
  constructor
  · rw [hacc]
    refine buildAccentInfoList_sliceChain t.furigana _ 0 ?_
    rw [hsum]
    omega
  · rw [hacc, buildAccentInfoList_lenSum, hsum]

/-- Witness for C10: the がっこう merge produces fragments が・っ・こう that
tile the reading がっこう, with lengths 1, 1, 2 summing to 4. -/
theorem fragments_are_reading_slices_witness :
    sliceChain ['が','っ','こ','う'] 0
      [⟨['が'], 0, 1⟩, ⟨['っ'], 0, 1⟩, ⟨['こ','う'], 2, 2⟩] ∧
    fragLenSum [⟨['が'], 0, 1⟩, ⟨['っ'], 0, 1⟩, ⟨['こ','う'], 2, 2⟩] = 4 :=
  fragments_are_reading_slices
    [⟨['が'], 0⟩, ⟨['っ'], 0⟩, ⟨['こ','う'], 2⟩] 0
    ⟨['が','っ','こ','う'], ['学','校'], none⟩
    ⟨['が','っ','こ','う'], ['学','校'],
      [⟨['が'], 0, 1⟩, ⟨['っ'], 0, 1⟩, ⟨['こ','う'], 2, 2⟩], none⟩ 3
    (by decide)
    (by simp [processToken, bypassCond, is_kana_or_kanji, exception_symbols,
      seekIdx, consume, mkFrag, buildAccentInfoList, kata2hira,
      kata2hiraChar])

/-- C2: fragment selection for a non-bypass token is two-phase. Phase 1
(prefix-seek) skips, without consuming, every accent token from the cursor
whose normalized text is not a prefix of the normalized reading, stopping at
the first prefix match. Phase 2 (greedy consumption) consumes consecutive
accent tokens from there, one fragment per token carrying that token's mark
and length, until the concatenated length reaches the reading's length or
the stream is exhausted (and not longer). The fragments attached to the
emitted result are exactly those of the consumed run, in order, with the
consumed token's mark and length. All comparisons are kata2hira-normalized:
キョウ passes the prefix and length check against きょう. -/
theorem two_phase_selection :
    (∀ (ojad : List OjadResult) (tgt : List Char) (c : Nat),
      c ≤ seekIdx ojad tgt c ∧
      (∀ k (hk : k < ojad.length), c ≤ k → k < seekIdx ojad tgt c →
        ¬ (kata2hira (ojad.get ⟨k, hk⟩).text <+: tgt)) ∧
      (∀ hs : seekIdx ojad tgt c < ojad.length,
        kata2hira (ojad.get ⟨seekIdx ojad tgt c, hs⟩).text <+: tgt)) ∧
    (∀ (ojad : List OjadResult) (L idx : Nat),
      ∃ k, consume ojad L idx [] [] =
        (concatTexts ((ojad.drop idx).take k),
         ((ojad.drop idx).take k).map mkFrag, idx + k) ∧
        (L ≤ (concatTexts ((ojad.drop idx).take k)).length ∨
          ojad.length ≤ idx + k) ∧
        (∀ j, j < k →
          (concatTexts ((ojad.drop idx).take j)).length < L)) ∧
    (∀ (ojad : List OjadResult) (c : Nat) (t : FuriganaResult)
        (res : AccentResultObject) (c2 : Nat),
      bypassCond t = false →
      processToken ojad c t = .ok (some res, c2) →
      ∃ k, c2 = seekIdx ojad (kata2hira t.furigana) c + k ∧
        res.accent.map (fun a => (a.accent_marking_type, a.length)) =
          ((ojad.drop (seekIdx ojad (kata2hira t.furigana) c)).take k).map
            (fun o => (o.accent, o.text.length))) ∧
    (kata2hira ['キ','ョ','ウ'] = ['き','ょ','う'] ∧
      kata2hira ['キ','ョ','ウ'] <+: kata2hira ['き','ょ','う'] ∧
      (kata2hira ['キ','ョ','ウ']).length
        = (['き','ょ','う'] : List Char).length) := by
  refine ⟨?_, ?_, ?_, by decide, by decide, by decide⟩
  · intro ojad tgt c
    obtain ⟨h1, h2, h3, h4⟩ := seekIdx_spec ojad tgt (ojad.length - c) c rfl
    exact ⟨h1, h3, h4⟩
  · intro ojad L idx
    obtain ⟨k, hk, hkb, hstop, hmin⟩ :=
      consume_spec ojad L (ojad.length - idx) idx rfl [] []
    simp only [List.nil_append] at hk hstop hmin
    exact ⟨k, hk, hstop, hmin⟩
  · intro ojad c t res c2 hb h
    obtain ⟨k, hc2, hlen, hkh, hfur, hsurf, hacc, hmin, hkb⟩ :=
      processToken_success_spec ojad c t res c2 hb h
    refine ⟨k, hc2, ?_⟩
    rw [hacc, buildAccentInfoList_marks, List.map_map]
    rfl

/-- Witness for C2: token き processed at cursor 0 against the stream
[は, き]: the non-matching fragment は is skipped (not consumed), き is
consumed, and the result's single fragment carries き's mark 2 and length 1,
with the cursor ending at 2. -/
theorem two_phase_selection_witness :
    ∃ k, 2 = seekIdx [⟨['は'], 1⟩, ⟨['き'], 2⟩] (kata2hira ['き']) 0 + k ∧
      ([⟨['き'], 2, 1⟩] : List AccentInfo).map
          (fun a => (a.accent_marking_type, a.length)) =
        ((([⟨['は'], 1⟩, ⟨['き'], 2⟩] : List OjadResult).drop
          (seekIdx [⟨['は'], 1⟩, ⟨['き'], 2⟩] (kata2hira ['き']) 0)).take
            k).map (fun o => (o.accent, o.text.length)) :=
  two_phase_selection.2.2.1 [⟨['は'], 1⟩, ⟨['き'], 2⟩] 0
    ⟨['き'], ['木'], none⟩ ⟨['き'], ['木'], [⟨['き'], 2, 1⟩], none⟩ 2
    (by decide)
    (by simp [processToken, bypassCond, is_kana_or_kanji, exception_symbols,
      seekIdx, consume, mkFrag, buildAccentInfoList, kata2hira,
      kata2hiraChar])

/-- C3: the shared cursor is monotone. One iteration never rewinds it
(`c ≤ c2`), the whole loop never rewinds it, the loop hands the cursor
produced by token *i* to the processing of the remaining tokens, and the
accent tokens consumed into a validated result all lie in `[seek, c2)` with
`c ≤ seek` — strictly before the cursor every later token starts from, so
they can never be re-consumed. -/
theorem cursor_monotonic :
    (∀ (ojad : List OjadResult) (c : Nat) (t : FuriganaResult)
        (r : Option AccentResultObject) (c2 : Nat),
      processToken ojad c t = .ok (r, c2) → c ≤ c2) ∧
    (∀ (ojad : List OjadResult) (ts : List FuriganaResult) (c : Nat)
        (out : List AccentResultObject × Nat),
      mergeLoop ojad ts c = .ok out → c ≤ out.2) ∧
    (∀ (ojad : List OjadResult) (t : FuriganaResult)
        (ts : List FuriganaResult) (c : Nat) (r : Option AccentResultObject)
        (c2 : Nat),
      processToken ojad c t = .ok (r, c2) →
      mergeLoop ojad (t :: ts) c =
        (match r with
         | none => mergeLoop ojad ts c2
         | some x =>
            match mergeLoop ojad ts c2 with
            | .error e => .error e
            | .ok (rs, cf) => .ok (x :: rs, cf))) ∧
    (∀ (ojad : List OjadResult) (c : Nat) (t : FuriganaResult)
        (res : AccentResultObject) (c2 : Nat),
      bypassCond t = false →
      processToken ojad c t = .ok (some res, c2) →
      ∃ k, c ≤ seekIdx ojad (kata2hira t.furigana) c ∧
        c2 = seekIdx ojad (kata2hira t.furigana) c + k ∧
        res.accent = buildAccentInfoList t.furigana 0
          (((ojad.drop (seekIdx ojad (kata2hira t.furigana) c)).take k).map
            mkFrag)) := by
  refine ⟨processToken_cursor_le, ?_, ?_, ?_⟩
  · exact fun ojad ts c out h => mergeLoop_cursor_le ojad ts c out h
  · intro ojad t ts c r c2 h
    rcases r with _ | x <;> simp only [mergeLoop, h]
  · intro ojad c t res c2 hb h
    obtain ⟨k, hc2, hlen, hkh, hfur, hsurf, hacc, hmin, hkb⟩ :=
      processToken_success_spec ojad c t res c2 hb h
    exact ⟨k, (seekIdx_spec ojad (kata2hira t.furigana)
      (ojad.length - c) c rfl).1, hc2, hacc⟩

/-- Witness for C3: the same two-token stream; processing き from cursor 0
ends at cursor 2, which is where any later token would start. -/
theorem cursor_monotonic_witness :
    processToken [⟨['は'], 1⟩, ⟨['き'], 2⟩] 0 ⟨['き'], ['木'], none⟩ =
      .ok (some ⟨['き'], ['木'], [⟨['き'], 2, 1⟩], none⟩, 2) ∧ (0 : Nat) ≤ 2 :=
  ⟨by simp [processToken, bypassCond, is_kana_or_kanji, exception_symbols,
      seekIdx, consume, mkFrag, buildAccentInfoList, kata2hira,
      kata2hiraChar],
   cursor_monotonic.1 [⟨['は'], 1⟩, ⟨['き'], 2⟩] 0 ⟨['き'], ['木'], none⟩
    (some ⟨['き'], ['木'], [⟨['き'], 2, 1⟩], none⟩) 2
    (by simp [processToken, bypassCond, is_kana_or_kanji, exception_symbols,
      seekIdx, consume, mkFrag, buildAccentInfoList, kata2hira,
      kata2hiraChar])⟩

/-- C5: a validation failure is token-local: the failing token yields no
result and leaves the shared cursor exactly where it was (nothing tentatively
examined is kept), the loop on the remaining tokens proceeds as if the
failing token were absent, and a loop that finishes normally is wrapped in a
`status = 200` response with no error object. -/
theorem alignment_mismatch_token_local :
    (∀ (ojad : List OjadResult) (c : Nat) (t : FuriganaResult),
      bypassCond t = false → alignmentMismatch ojad c t →
      processToken ojad c t = .ok (none, c)) ∧
    (∀ (ojad : List OjadResult) (t : FuriganaResult)
        (ts : List FuriganaResult) (c : Nat),
      processToken ojad c t = .ok (none, c) →
      mergeLoop ojad (t :: ts) c = mergeLoop ojad ts c) ∧
    (∀ (furigana_results : List FuriganaResult) (ojad : List OjadResult)
        (out : List AccentResultObject × Nat),
      mergeLoop ojad furigana_results 0 = .ok out →
      mark_accent furigana_results ojad = ⟨200, out.1, none⟩) := by
  refine ⟨?_, ?_, ?_⟩
  · exact fun ojad c t hb hm => processToken_of_mismatch ojad c t hb hm
  · exact fun ojad t ts c h => mergeLoop_skip ojad t ts c h
  · intro fr ojad out h
    unfold mark_accent
    rw [h]

/-- Witness for C5: reading あ with an exhausted accent stream is a
mismatch: the token is dropped, the cursor stays 0, and the request is still
answered 200 with no error object. -/
theorem alignment_mismatch_token_local_witness :
    processToken [] 0 ⟨['あ'], ['あ'], none⟩ = .ok (none, 0) ∧
    mergeLoop [] [⟨['あ'], ['あ'], none⟩] 0 = mergeLoop [] [] 0 ∧
    mark_accent [⟨['あ'], ['あ'], none⟩] [] = ⟨200, [], none⟩ := by
  have h1 := alignment_mismatch_token_local.1 [] 0 ⟨['あ'], ['あ'], none⟩
    (by decide) (by simp [alignmentMismatch, consume, seekIdx])
  refine ⟨h1, alignment_mismatch_token_local.2.1 [] _ [] 0 h1, ?_⟩
  exact alignment_mismatch_token_local.2.2 [⟨['あ'], ['あ'], none⟩] []
    ([], 0) (by simp [mergeLoop, h1])

theorem processToken_of_valid (ojad : List OjadResult) (c : Nat)
    (t : FuriganaResult) (hb : bypassCond t = false)
    (hsub : t.subword = none) (hv : ¬ alignmentMismatch ojad c t) :
    ∃ res c2, processToken ojad c t = .ok (some res, c2) ∧
      res.surface = t.surface := by
  obtain ⟨k, hk, hkb, hstop, hmin⟩ :=
    consume_spec ojad t.furigana.length
      (ojad.length - seekIdx ojad (kata2hira t.furigana) c)
      (seekIdx ojad (kata2hira t.furigana) c) rfl [] []
  simp only [List.nil_append] at hk
  unfold alignmentMismatch at hv
  rw [hk, not_not] at hv
  unfold processToken
  simp only [hb, Bool.false_eq_true, if_false, hk]
  rw [if_pos hv, hsub]
  exact ⟨_, _, rfl, rfl⟩

theorem inputSurfaceConcat_length (ts : List FuriganaResult) :
    (inputSurfaceConcat ts).length
      = ((ts.map (fun t => t.surface)).map List.length).sum := by
  induction ts with
  | nil => rfl
  | cons t ts ih => simp [inputSurfaceConcat, List.length_append, ih]

theorem mergeLoop_preserves_surfaces (ojad : List OjadResult) :
    ∀ (ts : List FuriganaResult) (c : Nat),
      (∀ t ∈ ts, t.subword = none) → wellFormed ojad ts c →
      ∃ rs cf, mergeLoop ojad ts c = .ok (rs, cf) ∧
        rs.map (fun r => r.surface) = ts.map (fun t => t.surface) := by
  intro ts
  induction ts with
  | nil =>
      intro c _ _
      exact ⟨[], c, rfl, rfl⟩
  | cons t ts ih =>
      intro c hsub hwf
      obtain ⟨hw1, hw2⟩ := hwf
      have hsubt : t.subword = none := hsub t (List.mem_cons_self t ts)
      have hsub' : ∀ x ∈ ts, x.subword = none :=
        fun x hx => hsub x (List.mem_cons_of_mem _ hx)
      by_cases hb : bypassCond t = true
      · have hp := processToken_of_bypass ojad c t hb
        have hnext : nextCursor ojad c t = c := by
          unfold nextCursor
          rw [hp]
        rw [hnext] at hw2
        obtain ⟨rs, cf, hm, hmap⟩ := ih c hsub' hw2
        refine ⟨⟨t.furigana, t.surface,
          [⟨t.surface, 0, t.surface.length⟩], none⟩ :: rs, cf, ?_, ?_⟩
        · simp only [mergeLoop, hp, hm]
        · simp [hmap]
      · have hb' : bypassCond t = false := by
          revert hb
          cases bypassCond t <;> simp
        have hv : ¬ alignmentMismatch ojad c t := by
          rcases hw1 with hw1 | hw1
          · exact absurd hw1 hb
          · exact hw1
        obtain ⟨res, c2, hp, hres⟩ := processToken_of_valid ojad c t hb' hsubt hv
        have hnext : nextCursor ojad c t = c2 := by
          unfold nextCursor
          rw [hp]
        rw [hnext] at hw2
        obtain ⟨rs, cf, hm, hmap⟩ := ih c2 hsub' hw2
        refine ⟨res :: rs, cf, ?_, ?_⟩
        · simp only [mergeLoop, hp, hm]
        · simp [hmap, hres]

/-- Without sub-token-carrying tokens (where the rebuild bug at lines
367–370 fires), a well-formed input does preserve all surfaces: the loop
finishes, the endpoint answers 200, the output surfaces are the input
surfaces in order, and the total output surface character count equals the
character count of the concatenated input surfaces (the original query, for
a well-formed upstream segmentation). -/
theorem surfaces_preserved_without_subwords (ojad : List OjadResult)
    (ts : List FuriganaResult)
    (hsub : ∀ t ∈ ts, t.subword = none) (hwf : wellFormed ojad ts 0) :
    ∃ rs cf, mergeLoop ojad ts 0 = .ok (rs, cf) ∧
      mark_accent ts ojad = ⟨200, rs, none⟩ ∧
      total_surface_length rs = (inputSurfaceConcat ts).length := by
  obtain ⟨rs, cf, hm, hmap⟩ := mergeLoop_preserves_surfaces ojad ts 0 hsub hwf
  refine ⟨rs, cf, hm, ?_, ?_⟩
  · unfold mark_accent
    rw [hm]
  · rw [inputSurfaceConcat_length, ← hmap, total_surface_length,
      List.map_map]
    rfl

/-- C7 (code bug): the source intends to pass the sub-token list through
unchanged (the spec and `MultiWordAccentResultObject`'s own `subword : list[SingleWordResultObject]`
declaration both say so), but at lines 367–370 it builds each output element
as `SingleWordResultObject(furigana=s, surface=s)` where `s` is the *whole*
sub-token dict, not its string fields. pydantic therefore raises a
`ValidationError`, the `except Exception` handler fires, and the whole
request is answered `status = 500` with an empty result — no sub-token list
is ever carried through for a validated token that has one. -/
theorem subword_passthrough_raises :
    buildSubwordOutput [⟨['き'], ['木']⟩] = .error () ∧
    ¬ alignmentMismatch [⟨['き'], 1⟩] 0
      ⟨['き'], ['木'], some [⟨['き'], ['木']⟩]⟩ ∧
    processToken [⟨['き'], 1⟩] 0 ⟨['き'], ['木'], some [⟨['き'], ['木']⟩]⟩
      = .error () ∧
    mark_accent [⟨['き'], ['木'], some [⟨['き'], ['木']⟩]⟩] [⟨['き'], 1⟩] =
      ⟨500, [], some ⟨500, 0⟩⟩ := by
  refine ⟨by simp [buildSubwordOutput, mkSingleWordResultObject, List.mapM,
    List.mapM.loop], ?_, ?_, ?_⟩
  · simp [alignmentMismatch, consume, seekIdx, kata2hira, kata2hiraChar]
  · simp [processToken, bypassCond, is_kana_or_kanji, exception_symbols,
      seekIdx, consume, mkFrag, buildAccentInfoList, kata2hira, kata2hiraChar,
      buildSubwordOutput, mkSingleWordResultObject, List.mapM, List.mapM.loop]
  · simp [mark_accent, mergeLoop, processToken, bypassCond, is_kana_or_kanji,
      exception_symbols, seekIdx, consume, mkFrag, buildAccentInfoList,
      kata2hira, kata2hiraChar, buildSubwordOutput, mkSingleWordResultObject,
      List.mapM, List.mapM.loop]

/-- C6 (code bug): character conservation fails on a well-formed input.
The input below (query は木, two characters) has every token either bypassed
or passing validation — は aligns, and 木/き passes the step-4 validation —
yet because き carries a sub-token list, the rebuild slip of lines 367–370
raises, the request is answered `status = 500` with `result = []`, and the
total output surface character count is 0, not 2. -/
theorem wellformed_input_loses_characters :
    wellFormed [⟨['は'], 1⟩, ⟨['き'], 2⟩]
      [⟨['は'], ['は'], none⟩, ⟨['き'], ['木'], some [⟨['き'], ['木']⟩]⟩] 0 ∧
    (inputSurfaceConcat
      [⟨['は'], ['は'], none⟩,
       ⟨['き'], ['木'], some [⟨['き'], ['木']⟩]⟩]).length = 2 ∧
    mark_accent
      [⟨['は'], ['は'], none⟩, ⟨['き'], ['木'], some [⟨['き'], ['木']⟩]⟩]
      [⟨['は'], 1⟩, ⟨['き'], 2⟩] = ⟨500, [], some ⟨500, 0⟩⟩ ∧
    total_surface_length (mark_accent
      [⟨['は'], ['は'], none⟩, ⟨['き'], ['木'], some [⟨['き'], ['木']⟩]⟩]
      [⟨['は'], 1⟩, ⟨['き'], 2⟩]).result = 0 := by
  refine ⟨?_, by decide, ?_, ?_⟩
  · simp [wellFormed, nextCursor, alignmentMismatch, processToken, bypassCond,
      is_kana_or_kanji, exception_symbols, seekIdx, consume, mkFrag,
      buildAccentInfoList, kata2hira, kata2hiraChar, buildSubwordOutput,
      mkSingleWordResultObject, List.mapM, List.mapM.loop]
  · simp [mark_accent, mergeLoop, processToken, bypassCond, is_kana_or_kanji,
      exception_symbols, seekIdx, consume, mkFrag, buildAccentInfoList,
      kata2hira, kata2hiraChar, buildSubwordOutput, mkSingleWordResultObject,
      List.mapM, List.mapM.loop]
  · simp [total_surface_length, mark_accent, mergeLoop, processToken,
      bypassCond, is_kana_or_kanji, exception_symbols, seekIdx, consume,
      mkFrag, buildAccentInfoList, kata2hira, kata2hiraChar,
      buildSubwordOutput, mkSingleWordResultObject, List.mapM, List.mapM.loop]

end AccentMarker
